import Mathlib

/-!
Verification of the pattern-store-and-evaluate engine in
`mcp-server/src/pattern_engine.ts`.

The file under test contains two revisions of the engine:

* revision 1 (lines 11-138): `secureProxy` (a `Proxy` handler with only a
  `get` trap and an `apply` trap), `addPattern` with a static
  word-boundary deny-list scan over `dangerousKeywords`, `getAllPatterns`
  (`SELECT * FROM star_combinations`), and `evaluatePatterns` (per-pattern
  `try`/`catch` around `vm.runInContext` with a strict `result === true`
  match test);
* revision 2 (lines 149-261): `addPattern` delegating to `validateScript`,
  which first enforces `script.length > 1000 => throw` and then scans the
  `blacklist` with the regular expression `(^|[^.])\bword\b`.

The embedding below models:
* JavaScript values as primitives plus references into an explicit heap of
  objects; each heap object is either a plain object (association-list
  properties, a prototype pointer, an optional native-function id) or a
  `secureProxy` proxy recording its target reference;
* the host operations the proxy handler relies on: property get with
  prototype-chain walk (`Reflect.get` on data properties, with the
  inherited accessor for the prototype-chain pointer), the default
  forwarding behaviour of the absent `set` trap, and function application;
* the two word-boundary regular expressions by a faithful positional scan
  (a JS word character is `[A-Za-z0-9_]`, and a `\b` holds between two
  positions exactly when the word-character status differs across them);
* the SQLite-backed store as a list of committed rows in insertion order,
  with `lastID` equal to the row count after the insert;
* script execution (`vm.runInContext`) as an opaque parameter
  `run : String -> Except String JSVal`, an error standing for a thrown
  exception or the timeout abort.

String length note: JS `script.length` counts UTF-16 code units while the
model counts characters; the two agree on all scripts without
supplementary-plane characters.
-/

namespace Iztro

/-- JavaScript primitive values (`typeof` not object/function, or null). -/
inductive Prim
  | undef
  | null
  | boolV (b : Bool)
  | numV (n : Int)
  | strV (s : String)
  deriving DecidableEq

/-- A JavaScript value: a primitive or a reference into the heap. -/
inductive JSVal
  | prim (p : Prim)
  | ref (r : Nat)
  deriving DecidableEq

/-- Data of a plain (non-proxy) heap object: own properties, the
prototype-chain pointer, and an optional native-function id making the
object callable. -/
structure ObjData where
  props : List (String × JSVal)
  proto : JSVal
  fnId : Option Nat
  deriving DecidableEq

/-- A heap object: a plain object, or a `secureProxy` proxy recording the
reference of its wrapped target. -/
inductive HObj
  | plain (o : ObjData)
  | proxy (target : Nat)
  deriving DecidableEq

/-- The heap: objects addressed by their position; allocation appends. -/
abbrev Heap := List HObj

/-- Dereference a heap address. -/
def heapGet (h : Heap) (r : Nat) : Option HObj := h.get? r

/-- `secureProxy` (revision 1, lines 23-51): primitives are returned as
is; an object or function is wrapped in a fresh `new Proxy(target,
handler)`, modelled as allocating a new proxy cell at the end of the
heap. The source allocates unconditionally: there is no cache. -/
def secureProxy (h : Heap) (v : JSVal) : Heap × JSVal :=
  match v with
  | JSVal.prim p => (h, JSVal.prim p)
  | JSVal.ref r => (h ++ [HObj.proxy r], JSVal.ref h.length)

/-- The fixed deny-list of the `get` trap: `constructor`, `__proto__`,
`prototype` (line 32 of the source). -/
def denyList : List String := ["constructor", "__proto__", "prototype"]

/-- Own-property lookup on an association list. -/
def propsLookup (props : List (String × JSVal)) (name : String) : Option JSVal :=
  List.lookup name props

/-- Property read (`[[Get]]`). On a proxy this is the `get` trap of
`secureProxy`: deny-listed names yield `undefined`; otherwise
`Reflect.get` on the target, and the retrieved value is recursively
proxied (line 36-39). On a plain object: the prototype-chain pointer
accessor, then own properties, then the prototype chain. Fuel bounds the
chain walk; exhausted fuel yields `undefined`. -/
def getVal (h : Heap) : Nat → JSVal → String → Heap × JSVal
  | 0, _, _ => (h, JSVal.prim Prim.undef)
  | _ + 1, JSVal.prim _, _ => (h, JSVal.prim Prim.undef)
  | fuel + 1, JSVal.ref r, name =>
    match heapGet h r with
    | none => (h, JSVal.prim Prim.undef)
    | some (HObj.proxy t) =>
      if name ∈ denyList then (h, JSVal.prim Prim.undef)
      else
        let hv := getVal h fuel (JSVal.ref t) name
        secureProxy hv.1 hv.2
    | some (HObj.plain o) =>
      if name = "__proto__" then (h, o.proto)
      else
        match propsLookup o.props name with
        | some v => (h, v)
        | none => getVal h fuel o.proto name

/-- Update or insert an own property. -/
def propsSet (props : List (String × JSVal)) (name : String) (v : JSVal) :
    List (String × JSVal) :=
  match props with
  | [] => [(name, v)]
  | q :: rest => if q.1 = name then (name, v) :: rest else q :: propsSet rest name v

/-- Property write (`[[Set]]`). The `secureProxy` handler defines no `set`
trap, so the proxy's default behaviour forwards the write to its target;
on a plain data object the write lands on the object and succeeds. The
returned flag is the JS `[[Set]]` success result. -/
def setVal (h : Heap) : Nat → JSVal → String → JSVal → Heap × Bool
  | 0, _, _, _ => (h, false)
  | _ + 1, JSVal.prim _, _, _ => (h, false)
  | fuel + 1, JSVal.ref r, name, v =>
    match heapGet h r with
    | none => (h, false)
    | some (HObj.proxy t) => setVal h fuel (JSVal.ref t) name v
    | some (HObj.plain o) =>
      (h.set r (HObj.plain ⟨propsSet o.props name v, o.proto, o.fnId⟩), true)

/-- Behaviours of the native (host) callables reachable from the chart:
an id is mapped to a function of the heap, the receiver (`this`), and the
argument list. A parameter of the model, never stored in the heap. -/
abbrev NativeFns := Nat → Heap → JSVal → List JSVal → Heap × Except String JSVal

/-- Function application (`[[Call]]`). On a proxy this is the `apply`
trap of `secureProxy` (lines 42-47): `Reflect.apply(target, thisArg,
args)` — the receiver and the arguments are passed through verbatim —
and the result is proxied on the way out. On a plain callable the native
behaviour runs. Calling a non-callable throws (an error result). -/
def applyVal (fns : NativeFns) (h : Heap) :
    Nat → JSVal → JSVal → List JSVal → Heap × Except String JSVal
  | 0, _, _, _ => (h, Except.error "fuel exhausted")
  | _ + 1, JSVal.prim _, _, _ => (h, Except.error "TypeError: not a function")
  | fuel + 1, JSVal.ref r, thisArg, args =>
    match heapGet h r with
    | none => (h, Except.error "TypeError: not a function")
    | some (HObj.proxy t) =>
      match applyVal fns h fuel (JSVal.ref t) thisArg args with
      | (h1, Except.ok res) =>
        let hv := secureProxy h1 res
        (hv.1, Except.ok hv.2)
      | (h1, Except.error e) => (h1, Except.error e)
    | some (HObj.plain o) =>
      match o.fnId with
      | some fid => fns fid h thisArg args
      | none => (h, Except.error "TypeError: not a function")

/-- A value is guarded in a heap when it is a primitive or a reference to
a proxy cell: exactly the shapes `secureProxy` hands to sandboxed code. -/
def guardedVal (h : Heap) (v : JSVal) : Prop :=
  (∃ p, v = JSVal.prim p) ∨ ∃ r t, v = JSVal.ref r ∧ heapGet h r = some (HObj.proxy t)

/-! ## The word-boundary regular expressions of the static scans -/

/-- JS `\w`: `[A-Za-z0-9_]`. -/
def isWordChar (c : Char) : Bool := c.isAlpha || c.isDigit || c == '_'

/-- Word-character status of an optional character; out of range counts
as non-word. -/
def optWord : Option Char → Bool
  | none => false
  | some c => isWordChar c

/-- A `\b` between two adjacent positions holds exactly when the
word-character status differs across them. -/
def boundaryB (left right : Option Char) : Bool := optWord left != optWord right

/-- One attempt of `\b w \b` at a fixed position: `prev` is the character
before the position (`none` at the string start), `s` the suffix from the
position on. -/
def match1At (w : List Char) (prev : Option Char) (s : List Char) : Bool :=
  w.isPrefixOf s && boundaryB prev s.head? && boundaryB w.getLast? (s.drop w.length).head?

/-- `\b w \b` tested at every position of the suffix (RegExp.test
searches the whole string). -/
def scan1 (w : List Char) (prev : Option Char) : List Char → Bool
  | [] => match1At w prev []
  | c :: rest => match1At w prev (c :: rest) || scan1 w (some c) rest

/-- `new RegExp("\\b" ++ w ++ "\\b").test s` (revision 1, line 82). -/
def regexTest1 (w s : String) : Bool := scan1 w.data none s.data

/-- One attempt of `(^|[^.]) \b w \b` at a fixed position: the `^` branch
applies only at the string start; the `[^.]` branch consumes the
preceding character, which must not be a dot. -/
def match2At (w : List Char) (prev : Option Char) (s : List Char) : Bool :=
  (match prev with
   | none => true
   | some c => !(c == '.')) && match1At w prev s

/-- `(^|[^.]) \b w \b` tested at every position. -/
def scan2 (w : List Char) (prev : Option Char) : List Char → Bool
  | [] => match2At w prev []
  | c :: rest => match2At w prev (c :: rest) || scan2 w (some c) rest

/-- `new RegExp("(^|[^.])\\b" ++ w ++ "\\b").test s` (revision 2,
line 220). -/
def regexTest2 (w s : String) : Bool := scan2 w.data none s.data

/-! ## Pattern store and evaluation -/

/-- A pattern record; `id` is assigned by the store at creation. -/
structure Pattern where
  id : Option Nat
  name : String
  script : String
  description : String
  examples : String
  deriving DecidableEq

/-- Revision 1 deny-list (line 78). -/
def dangerousKeywords : List String :=
  ["process", "require", "import", "global", "eval", "Function"]

/-- The first deny-listed keyword the revision-1 scan finds in a script,
if any (the `for` loop of lines 79-86 rejects at the first match). -/
def forbiddenKeyword1 (script : String) : Option String :=
  dangerousKeywords.find? (fun k => regexTest1 k script)

/-- Revision 1 `addPattern` (lines 76-101): reject when the scan finds a
keyword, otherwise insert the row; `lastID` is the row count after the
insert. The store is the list of committed rows in insertion order. -/
def addPattern (db : List Pattern) (p : Pattern) : List Pattern × Except String Nat :=
  match forbiddenKeyword1 p.script with
  | some k => (db, Except.error ("Security Error: Script contains forbidden keyword " ++ k))
  | none => (db ++ [{ p with id := some (db.length + 1) }], Except.ok (db.length + 1))

/-- `getAllPatterns` (lines 103-110): `SELECT * FROM star_combinations`,
yielding the committed rows in insertion (rowid) order. -/
def getAllPatterns (db : List Pattern) : List Pattern := db

/-- One iteration of the evaluation loop (lines 122-133): run the script;
on a thrown exception or timeout (`Except.error`) the `catch` swallows the
failure and the pattern is skipped; on a result, the pattern is kept
exactly when `result === true`. -/
def evalStep (run : String → Except String JSVal) (acc : List Pattern) (p : Pattern) :
    List Pattern :=
  match run p.script with
  | Except.ok result =>
    if result = JSVal.prim (Prim.boolV true) then acc ++ [p] else acc
  | Except.error _ => acc

/-- `evaluatePatterns` (lines 112-135): fold the loop body over
`getAllPatterns`, starting from an empty match list. -/
def evaluatePatterns (run : String → Except String JSVal) (db : List Pattern) : List Pattern :=
  (getAllPatterns db).foldl (evalStep run) []

/-- Whether one pattern's run counts as matched: a non-exceptional result
strictly equal to `true`. -/
def evalOutcome (run : String → Except String JSVal) (p : Pattern) : Bool :=
  match run p.script with
  | Except.ok result => result = JSVal.prim (Prim.boolV true)
  | Except.error _ => false

/-! ## Revision 2: `validateScript` -/

/-- Revision 2 deny-list (lines 203-214). -/
def blacklist : List String :=
  ["process", "require", "eval", "Function", "constructor", "__proto__",
   "prototype", "import", "global", "globalThis"]

/-- The first blacklisted word the revision-2 regex finds, if any. -/
def forbiddenKeyword2 (script : String) : Option String :=
  blacklist.find? (fun w => regexTest2 w script)

/-- `validateScript` (lines 197-225): reject scripts longer than 1000
characters, then reject at the first blacklisted word matched by
`(^|[^.])\bword\b`. -/
def validateScript (script : String) : Except String Unit :=
  if script.length > 1000 then
    Except.error "Script too long (max 1000 chars)"
  else
    match forbiddenKeyword2 script with
    | some w => Except.error ("Security Error: Script contains forbidden keyword " ++ w)
    | none => Except.ok ()

/-- Revision 2 `addPattern` (lines 180-195): `validateScript` runs before
the insert; a thrown validation error rejects the call with no write. -/
def addPatternV2 (db : List Pattern) (p : Pattern) : List Pattern × Except String Nat :=
  match validateScript p.script with
  | Except.error e => (db, Except.error e)
  | Except.ok _ => (db ++ [{ p with id := some (db.length + 1) }], Except.ok (db.length + 1))

/-- Every occurrence of `w` in the scanned suffix is immediately preceded
by a dot; `prev` is the character before the suffix. Positional scan form
of the side condition of claim C10. -/
def occDotGuarded (w : List Char) (prev : Option Char) : List Char → Bool
  | [] => true
  | c :: rest =>
    (!(w.isPrefixOf (c :: rest)) || prev == some '.') && occDotGuarded w (some c) rest

/-- Every occurrence of every blacklisted word in the script is
immediately preceded by a dot. -/
def scriptDotGuarded (s : String) : Bool :=
  blacklist.all (fun w => occDotGuarded w.data none s.data)

/-! ## Concrete fixtures used by witnesses and counterexamples -/

/-- A one-object heap: a plain empty object at address 0. -/
def exHeap0 : Heap := [HObj.plain ⟨[], JSVal.prim Prim.null, none⟩]

/-- `exHeap0` after wrapping its object: the proxy lives at address 1. -/
def exHeap1 : Heap := [HObj.plain ⟨[], JSVal.prim Prim.null, none⟩, HObj.proxy 0]

/-- A chart-like object at 0 with a method slot `m` pointing at the
callable at 1. -/
def chartHeap : Heap :=
  [HObj.plain ⟨[("m", JSVal.ref 1)], JSVal.prim Prim.null, none⟩,
   HObj.plain ⟨[], JSVal.prim Prim.null, some 0⟩]

/-- `chartHeap` after wrapping the chart (proxy of 0 at address 2). -/
def chartHeap1 : Heap := chartHeap ++ [HObj.proxy 0]

/-- `chartHeap1` after reading `m` through the view (proxy of 1 at 3). -/
def chartHeap2 : Heap := chartHeap1 ++ [HObj.proxy 1]

/-- A native behaviour observing its receiver: returns whether `this` is
the real unwrapped chart (address 0). -/
def obsFns : NativeFns := fun _ h this _ =>
  (h, Except.ok (JSVal.prim (Prim.boolV (decide (this = JSVal.ref 0)))))

/-- A native behaviour observing its arguments: returns whether the
argument list is exactly the raw unwrapped reference 0. -/
def argObsFns : NativeFns := fun _ h _ args =>
  (h, Except.ok (JSVal.prim (Prim.boolV (decide (args = [JSVal.ref 0])))))

/-- A native behaviour returning its receiver unchanged. -/
def idFns : NativeFns := fun _ h this _ => (h, Except.ok this)

/-- A heap holding one plain callable at 0 and its proxy at 1. -/
def fnHeap : Heap := [HObj.plain ⟨[], JSVal.prim Prim.null, some 0⟩, HObj.proxy 0]

/-- A mutable-object heap: `{ a: 1 }` at 0 and its proxy at 1. -/
def mutHeap : Heap :=
  [HObj.plain ⟨[("a", JSVal.prim (Prim.numV 1))], JSVal.prim Prim.null, none⟩, HObj.proxy 0]

/-- `mutHeap` after the write `view.a = 5` landed on the target. -/
def mutHeapAfter : Heap :=
  [HObj.plain ⟨[("a", JSVal.prim (Prim.numV 5))], JSVal.prim Prim.null, none⟩, HObj.proxy 0]

/-- A pattern with blank name and script. -/
def blankPattern : Pattern := ⟨none, "", "", "", ""⟩

/-- A benign fixture pattern. -/
def p0 : Pattern := ⟨none, "n", "chart.x", "", ""⟩

/-- A 1001-character script of plain letters. -/
def longScript : String := String.mk (List.replicate 1001 'a')

/-- A pattern whose script is `longScript`. -/
def longPattern : Pattern := ⟨none, "n", longScript, "", ""⟩

/-! ## Helper lemmas -/

/-- Allocation at the end of the heap is addressed by the old length. -/
theorem heapGet_append_length (h : Heap) (o : HObj) : heapGet (h ++ [o]) h.length = some o := by
  induction h with
  | nil => rfl
  | cons x xs _ => simp [heapGet, List.get?]

/-- Reading below the old length is unaffected by an allocation. -/
theorem heapGet_append_lt (h : Heap) (o : HObj) (r : Nat) (hr : r < h.length) :
    heapGet (h ++ [o]) r = heapGet h r := by
  simp [heapGet, List.get?_eq_getElem?, List.getElem?_append_left hr]

/-- `secureProxy` only hands out primitives or references to proxy cells. -/
theorem secureProxy_guarded (h : Heap) (v : JSVal) :
    guardedVal (secureProxy h v).1 (secureProxy h v).2 := by
  cases v with
  | prim p => exact Or.inl ⟨p, rfl⟩
  | ref r =>
    refine Or.inr ⟨h.length, r, rfl, ?_⟩
    simpa [secureProxy] using heapGet_append_length h (HObj.proxy r)

/-! ## Claims -/

/-- C1: reading a GuardedView's constructor-exposing, prototype-exposing,
or prototype-chain-pointer binding yields `undefined` rather than the real
value (first conjunct); and any value reached from a GuardedView through a
property read (second conjunct) or a call return (third conjunct) is
itself guarded — a primitive or another proxy — so the deny also holds on
indirectly reached values. -/
theorem secureProxy_denied_reads_absent :
    (∀ (h : Heap) (fuel r t : Nat) (d : String),
      heapGet h r = some (HObj.proxy t) → d ∈ denyList →
      getVal h (fuel + 1) (JSVal.ref r) d = (h, JSVal.prim Prim.undef))
    ∧ (∀ (h : Heap) (fuel r t : Nat) (n : String),
      heapGet h r = some (HObj.proxy t) →
      guardedVal (getVal h (fuel + 1) (JSVal.ref r) n).1
        (getVal h (fuel + 1) (JSVal.ref r) n).2)
    ∧ (∀ (fns : NativeFns) (h : Heap) (fuel r t : Nat) (thisArg : JSVal)
        (args : List JSVal) (h1 : Heap) (res : JSVal),
      heapGet h r = some (HObj.proxy t) →
      applyVal fns h (fuel + 1) (JSVal.ref r) thisArg args = (h1, Except.ok res) →
      guardedVal h1 res) := by
  refine ⟨?_, ?_, ?_⟩
  · intro h fuel r t d hpx hd
    simp [getVal, hpx, hd]
  · intro h fuel r t n hpx
    by_cases hn : n ∈ denyList
    · simp only [getVal, hpx, hn, if_true, if_pos]
      exact Or.inl ⟨Prim.undef, rfl⟩
    · simp only [getVal, hpx, hn, if_false, if_neg, not_false_iff]
      exact secureProxy_guarded _ _
  · intro fns h fuel r t thisArg args h1 res hpx happ
    rcases hinner : applyVal fns h fuel (JSVal.ref t) thisArg args with ⟨h2, r2⟩
    cases r2 with
    | ok v =>
      simp [applyVal, hpx, hinner] at happ
      rcases happ with ⟨hh, hr⟩
      rw [← hh, ← hr]
      exact secureProxy_guarded h2 v
    | error e =>
      simp [applyVal, hpx, hinner] at happ

/-- Witness for C1 at a concrete heap: the deny-listed read on the proxy
at address 1 yields `undefined`. -/
theorem secureProxy_denied_reads_absent_witness :
    getVal exHeap1 1 (JSVal.ref 1) "constructor" = (exHeap1, JSVal.prim Prim.undef) :=
  secureProxy_denied_reads_absent.1 exHeap1 0 1 0 "constructor" (by decide) (by decide)

/-- C2 counterexample: wrapping the same underlying reference twice gives
two reference-distinct GuardedViews — `secureProxy` has no cache and
allocates a fresh proxy on every call, so wrap is not identity-preserving
as the claim states. -/
theorem secureProxy_not_identity_preserving_cex :
    (secureProxy exHeap0 (JSVal.ref 0)).2
      ≠ (secureProxy (secureProxy exHeap0 (JSVal.ref 0)).1 (JSVal.ref 0)).2 := by
  decide

/-- C2 amended: `secureProxy` allocates a fresh proxy cell on every call
on an object reference; two wraps of the same reference yield
reference-distinct views, each a proxy of that same underlying target.
Only primitives pass through identically. -/
theorem secureProxy_fresh_allocation_each_wrap (h : Heap) (r : Nat) :
    (secureProxy h (JSVal.ref r)).2 = JSVal.ref h.length
    ∧ (secureProxy (secureProxy h (JSVal.ref r)).1 (JSVal.ref r)).2
        = JSVal.ref (h.length + 1)
    ∧ (secureProxy h (JSVal.ref r)).2
        ≠ (secureProxy (secureProxy h (JSVal.ref r)).1 (JSVal.ref r)).2
    ∧ heapGet (secureProxy (secureProxy h (JSVal.ref r)).1 (JSVal.ref r)).1 h.length
        = some (HObj.proxy r)
    ∧ heapGet (secureProxy (secureProxy h (JSVal.ref r)).1 (JSVal.ref r)).1 (h.length + 1)
        = some (HObj.proxy r)
    ∧ ∀ p : Prim, secureProxy h (JSVal.prim p) = (h, JSVal.prim p) := by
  have h4 : heapGet ((h ++ [HObj.proxy r]) ++ [HObj.proxy r]) h.length
      = some (HObj.proxy r) := by
    rw [heapGet_append_lt _ _ _ (by simp)]
    exact heapGet_append_length h _
  have h5 : heapGet ((h ++ [HObj.proxy r]) ++ [HObj.proxy r]) (h.length + 1)
      = some (HObj.proxy r) := by
    simpa using heapGet_append_length (h ++ [HObj.proxy r]) (HObj.proxy r)
  exact ⟨rfl, by simp [secureProxy], by simp [secureProxy],
    by simpa [secureProxy] using h4, by simpa [secureProxy] using h5, fun p => rfl⟩

/-- C3 counterexample: a property write through the GuardedView of the
object `{ a: 1 }` succeeds (the `[[Set]]` result is `true`, no throw) and
mutates the underlying object to `{ a: 5 }` — the handler has no `set`
trap, so the claim that all mutation fails leaving the target unchanged
is false. -/
theorem secureProxy_write_succeeds_cex :
    setVal mutHeap 2 (JSVal.ref 1) "a" (JSVal.prim (Prim.numV 5)) = (mutHeapAfter, true)
    ∧ mutHeap ≠ mutHeapAfter
    ∧ heapGet mutHeapAfter 0 ≠ heapGet mutHeap 0 := by
  exact ⟨by decide, by decide, by decide⟩

/-- C3 amended: the `secureProxy` handler defines only `get` and `apply`
traps, so a property write through the view forwards to the underlying
target by the default proxy behaviour; when the target is a plain object
the write succeeds and lands on the target. -/
theorem setVal_proxy_forwards_to_target :
    (∀ (h : Heap) (fuel p t : Nat) (name : String) (v : JSVal),
      heapGet h p = some (HObj.proxy t) →
      setVal h (fuel + 1) (JSVal.ref p) name v = setVal h fuel (JSVal.ref t) name v)
    ∧ (∀ (h : Heap) (fuel p t : Nat) (o : ObjData) (name : String) (v : JSVal),
      heapGet h p = some (HObj.proxy t) →
      heapGet h t = some (HObj.plain o) →
      setVal h (fuel + 2) (JSVal.ref p) name v
        = (h.set t (HObj.plain ⟨propsSet o.props name v, o.proto, o.fnId⟩), true)) := by
  constructor
  · intro h fuel p t name v hpx
    simp [setVal, hpx]
  · intro h fuel p t o name v hpx hpl
    simp [setVal, hpx, hpl]

/-- Witness for the amended C3 at the concrete heap `{ a: 1 }`. -/
theorem setVal_proxy_forwards_to_target_witness :
    setVal mutHeap 2 (JSVal.ref 1) "a" (JSVal.prim (Prim.numV 5)) = (mutHeapAfter, true) := by
  have := setVal_proxy_forwards_to_target.2 mutHeap 0 1 0
      ⟨[("a", JSVal.prim (Prim.numV 1))], JSVal.prim Prim.null, none⟩ "a"
      (JSVal.prim (Prim.numV 5)) (by decide) (by decide)
  exact this.trans (by decide)

/-- C4 counterexample: calling the chart's method through the GuardedView
(the method-call receiver is the proxy at address 2) hands the real
callable the proxy, not the real unwrapped receiver (address 0): the
receiver-observing native returns `false` where the claim requires
`true`. Likewise an argument passes through raw, not wrapped: the
argument-observing native sees the unwrapped reference 0 itself. -/
theorem applyVal_receiver_and_args_not_rewrapped_cex :
    getVal chartHeap1 3 (JSVal.ref 2) "m" = (chartHeap2, JSVal.ref 3)
    ∧ applyVal obsFns chartHeap2 3 (JSVal.ref 3) (JSVal.ref 2) []
        = (chartHeap2, Except.ok (JSVal.prim (Prim.boolV false)))
    ∧ applyVal argObsFns fnHeap 2 (JSVal.ref 1) (JSVal.prim Prim.undef) [JSVal.ref 0]
        = (fnHeap, Except.ok (JSVal.prim (Prim.boolV true))) :=
  ⟨by decide, by rfl, by rfl⟩

/-- C4 amended: the `apply` trap invokes the real underlying callable
with the caller-supplied receiver and argument list passed through
verbatim (neither unwrapped nor wrapped); only the returned value is
wrapped on the way out. -/
theorem applyVal_proxy_passes_this_args_verbatim :
    ∀ (fns : NativeFns) (h : Heap) (fuel p t fid : Nat) (o : ObjData)
      (thisArg : JSVal) (args : List JSVal),
      heapGet h p = some (HObj.proxy t) →
      heapGet h t = some (HObj.plain o) →
      o.fnId = some fid →
      applyVal fns h (fuel + 2) (JSVal.ref p) thisArg args
        = (match fns fid h thisArg args with
           | (h1, Except.ok res) => ((secureProxy h1 res).1, Except.ok (secureProxy h1 res).2)
           | (h1, Except.error e) => (h1, Except.error e)) := by
  intro fns h fuel p t fid o thisArg args hpx hpl hfn
  rcases hcall : fns fid h thisArg args with ⟨h1, r1⟩
  cases r1 <;> simp [applyVal, hpx, hpl, hfn, hcall]

/-- Witness for the amended C4: the identity-returning native called
through the proxy of the callable receives the receiver verbatim, and the
primitive result passes back unwrapped. -/
theorem applyVal_proxy_passes_this_args_verbatim_witness :
    applyVal idFns fnHeap 2 (JSVal.ref 1) (JSVal.prim (Prim.numV 7)) []
      = (fnHeap, Except.ok (JSVal.prim (Prim.numV 7))) := by
  have := applyVal_proxy_passes_this_args_verbatim idFns fnHeap 0 1 0 0
      ⟨[], JSVal.prim Prim.null, some 0⟩ (JSVal.prim (Prim.numV 7)) []
      (by decide) (by decide) rfl
  exact this.trans (by rfl)

/-- C5 counterexample: `addPattern` performs no blank-field check — a
pattern with blank name and blank script is accepted and persisted, so
the claim that a blank required field fails the call with a
ValidationError and persists nothing is false. -/
theorem addPattern_blank_accepted_cex :
    addPattern [] blankPattern = ([⟨some 1, "", "", "", ""⟩], Except.ok 1) := by
  rfl

/-- C5 amended: when the script contains a deny-listed token matched by
the word-boundary scan, `addPattern` fails with an error and persists
nothing — `getAllPatterns` after the failed call shows the unchanged
store. Blank required fields, however, are not checked. -/
theorem addPattern_forbidden_keyword_rejected :
    ∀ (db : List Pattern) (p : Pattern) (k : String),
      k ∈ dangerousKeywords → regexTest1 k p.script = true →
      (addPattern db p).1 = db
      ∧ (∃ e, (addPattern db p).2 = Except.error e)
      ∧ getAllPatterns (addPattern db p).1 = getAllPatterns db := by
  intro db p k hk hmatch
  have hsome : (forbiddenKeyword1 p.script).isSome := by
    rw [forbiddenKeyword1, List.find?_isSome]
    exact ⟨k, hk, hmatch⟩
  rcases hfind : forbiddenKeyword1 p.script with _ | k'
  · rw [hfind] at hsome
    simp at hsome
  · refine ⟨?_, ⟨"Security Error: Script contains forbidden keyword " ++ k', ?_⟩, ?_⟩ <;>
      simp [addPattern, getAllPatterns, hfind]

/-- A pattern whose script is the bare deny-listed word. -/
def evalPattern : Pattern := ⟨none, "n", "eval", "", ""⟩

/-- Witness for the amended C5: a script consisting of a deny-listed
token is rejected and the store stays empty. -/
theorem addPattern_forbidden_keyword_rejected_witness :
    (addPattern [] evalPattern).1 = []
    ∧ ∃ e, (addPattern [] evalPattern).2 = Except.error e := by
  have := addPattern_forbidden_keyword_rejected [] evalPattern "eval" (by decide) (by rfl)
  exact ⟨this.1, this.2.1⟩

/-- C6: a pattern whose script run fails (thrown exception or timeout,
an error result of the runner) is swallowed: evaluation returns exactly
what it returns without that pattern — every remaining pattern is still
evaluated and the failed one is not among the matches — and a failing
pattern alone yields no matches rather than an error. -/
theorem evaluatePatterns_isolates_failures :
    ∀ (run : String → Except String JSVal) (pre post : List Pattern) (p : Pattern) (e : String),
      run p.script = Except.error e →
      evaluatePatterns run (pre ++ p :: post) = evaluatePatterns run (pre ++ post)
      ∧ evaluatePatterns run [p] = [] := by
  intro run pre post p e herr
  constructor
  · simp [evaluatePatterns, getAllPatterns, List.foldl_append, evalStep, herr]
  · simp [evaluatePatterns, getAllPatterns, evalStep, herr]

/-- A runner matching only the fixture script, failing on all others. -/
def mixedRun : String → Except String JSVal := fun s =>
  if s = "chart.x" then Except.ok (JSVal.prim (Prim.boolV true)) else Except.error "boom"

/-- A pattern whose script the mixed runner fails on. -/
def failPattern : Pattern := ⟨none, "bad", "this.throws()", "", ""⟩

/-- Witness for C6: with a failing pattern between two matching ones,
evaluation equals the run without it, and the failing pattern alone
yields no matches. -/
theorem evaluatePatterns_isolates_failures_witness :
    evaluatePatterns mixedRun ([p0] ++ failPattern :: [p0])
      = evaluatePatterns mixedRun ([p0] ++ [p0])
    ∧ evaluatePatterns mixedRun [failPattern] = [] :=
  evaluatePatterns_isolates_failures mixedRun [p0] [p0] failPattern "boom" (by rfl)

/-- C7: a pattern counts as matched exactly when its script's result is
the boolean `true` under strict equality; any other result value,
truthy or not, leaves it unmatched. -/
theorem evaluatePatterns_strict_true_only :
    ∀ (run : String → Except String JSVal) (p : Pattern) (v : JSVal),
      run p.script = Except.ok v →
      evaluatePatterns run [p]
        = (if v = JSVal.prim (Prim.boolV true) then [p] else []) := by
  intro run p v hok
  by_cases hv : v = JSVal.prim (Prim.boolV true) <;>
    simp [evaluatePatterns, getAllPatterns, evalStep, hok, hv]

/-- A runner returning the truthy non-boolean `1` for every script. -/
def truthyRun : String → Except String JSVal := fun _ => Except.ok (JSVal.prim (Prim.numV 1))

/-- A runner returning the boolean `true` for every script. -/
def trueRun : String → Except String JSVal := fun _ => Except.ok (JSVal.prim (Prim.boolV true))

/-- Witness for C7: a truthy non-boolean result does not match; a strict
`true` result does. -/
theorem evaluatePatterns_strict_true_only_witness :
    evaluatePatterns truthyRun [p0] = [] ∧ evaluatePatterns trueRun [p0] = [p0] := by
  constructor
  · have := evaluatePatterns_strict_true_only truthyRun p0 (JSVal.prim (Prim.numV 1)) rfl
    simpa using this
  · have := evaluatePatterns_strict_true_only trueRun p0 (JSVal.prim (Prim.boolV true)) rfl
    simpa using this

/-- One evaluation step keeps the pattern exactly when its outcome is a
match. -/
theorem evalStep_eq_outcome (run : String → Except String JSVal) (acc : List Pattern)
    (p : Pattern) :
    evalStep run acc p = if evalOutcome run p then acc ++ [p] else acc := by
  unfold evalStep evalOutcome
  rcases run p.script with e | v
  · rfl
  · by_cases hv : v = JSVal.prim (Prim.boolV true) <;> simp [hv]

/-- The evaluation fold is the filter of the matched patterns appended to
the accumulator. -/
theorem foldl_evalStep_filter (run : String → Except String JSVal) :
    ∀ (l : List Pattern) (acc : List Pattern),
      l.foldl (evalStep run) acc = acc ++ l.filter (evalOutcome run) := by
  intro l
  induction l with
  | nil => intro acc; simp
  | cons p rest ih =>
    intro acc
    rw [List.foldl_cons, ih, evalStep_eq_outcome]
    by_cases hp : evalOutcome run p <;> simp [hp, List.filter_cons]

/-- C8: `getAllPatterns` returns the committed records in creation order
(the store itself), and `evaluatePatterns` returns exactly the matched
subset of them in that same order; when no pattern matches it returns
the empty list, not an error. -/
theorem evaluatePatterns_matched_subset_in_order :
    ∀ (run : String → Except String JSVal) (db : List Pattern),
      getAllPatterns db = db
      ∧ evaluatePatterns run db = (getAllPatterns db).filter (evalOutcome run)
      ∧ ((∀ p ∈ db, evalOutcome run p = false) → evaluatePatterns run db = []) := by
  intro run db
  have hf : evaluatePatterns run db = db.filter (evalOutcome run) := by
    simpa [evaluatePatterns, getAllPatterns] using foldl_evalStep_filter run db []
  refine ⟨rfl, by simpa [getAllPatterns] using hf, ?_⟩
  intro hall
  rw [hf, List.filter_eq_nil_iff]
  intro a ha
  simp [hall a ha]

/-- A runner returning the boolean `false` for every script. -/
def falseRun : String → Except String JSVal := fun _ => Except.ok (JSVal.prim (Prim.boolV false))

/-- Witness for C8: with no matching pattern the evaluation returns the
empty list. -/
theorem evaluatePatterns_matched_subset_in_order_witness :
    evaluatePatterns falseRun [p0] = [] := by
  refine (evaluatePatterns_matched_subset_in_order falseRun [p0]).2.2 ?_
  intro p hp
  rw [List.mem_singleton] at hp
  subst hp
  rfl

/-- C9: in the `validateScript` revision, every script longer than 1000
characters is rejected before any store write, whatever its content:
the call fails with the length error and the store is unchanged. -/
theorem addPatternV2_long_script_rejected :
    ∀ (db : List Pattern) (p : Pattern),
      p.script.length > 1000 →
      addPatternV2 db p = (db, Except.error "Script too long (max 1000 chars)") := by
  intro db p hlen
  simp [addPatternV2, validateScript, hlen]

set_option maxRecDepth 100000 in
/-- Witness for C9 at a concrete 1001-character script. -/
theorem addPatternV2_long_script_rejected_witness :
    longPattern.script.length > 1000
    ∧ addPatternV2 [] longPattern = ([], Except.error "Script too long (max 1000 chars)") :=
  ⟨by decide, addPatternV2_long_script_rejected [] longPattern (by decide)⟩

/-- A nonempty word never matched by the dot-allowing regex when all its
occurrences are dot-prefixed. -/
theorem occDotGuarded_scan2_false (w : List Char) (hw : w ≠ []) :
    ∀ (s : List Char) (prev : Option Char),
      occDotGuarded w prev s = true → scan2 w prev s = false := by
  intro s
  induction s with
  | nil =>
    intro prev _
    rcases w with _ | ⟨c, w'⟩
    · exact absurd rfl hw
    · simp [scan2, match2At, match1At, List.isPrefixOf]
  | cons c rest ih =>
    intro prev hocc
    rw [occDotGuarded, Bool.and_eq_true] at hocc
    obtain ⟨h1, h2⟩ := hocc
    have hrest := ih (some c) h2
    rw [scan2, hrest, Bool.or_false]
    rw [Bool.or_eq_true] at h1
    rcases h1 with hnp | hdot
    · have hpre : w.isPrefixOf (c :: rest) = false := by
        simpa using hnp
      simp [match2At, match1At, hpre]
    · have : prev = some '.' := by
        simpa using hdot
      subst this
      simp [match2At]

/-- C10 amended: a script of length at most 1000 in which every
occurrence of every deny-listed keyword is immediately preceded by a dot
passes `validateScript` and is persisted. (The dot-prefix exemption alone
is not sufficient: the length cap of `validateScript` still applies, as
the counterexample shows.) -/
theorem addPatternV2_dot_guarded_accepted :
    ∀ (db : List Pattern) (p : Pattern),
      p.script.length ≤ 1000 →
      scriptDotGuarded p.script = true →
      validateScript p.script = Except.ok ()
      ∧ addPatternV2 db p
          = (db ++ [{ p with id := some (db.length + 1) }], Except.ok (db.length + 1)) := by
  intro db p hlen hguard
  rw [scriptDotGuarded, List.all_eq_true] at hguard
  have hnone : forbiddenKeyword2 p.script = none := by
    rw [forbiddenKeyword2, List.find?_eq_none]
    intro w hw
    have hne : w.data ≠ [] := by
      have hb : blacklist.all (fun w => !w.data.isEmpty) = true := by decide
      have := List.all_eq_true.mp hb w hw
      simpa using this
    have hocc : occDotGuarded w.data none p.script.data = true := by
      simpa using hguard w hw
    simp [regexTest2, occDotGuarded_scan2_false w.data hne p.script.data none hocc]
  have hval : validateScript p.script = Except.ok () := by
    simp [validateScript, hnone, Nat.not_lt.mpr hlen]
  exact ⟨hval, by simp [addPatternV2, hval]⟩

set_option maxRecDepth 100000 in
/-- C10 counterexample: the 1001-character script of plain letters has
every occurrence of every deny-listed keyword dot-prefixed (vacuously:
there are none), yet `validateScript` rejects it for its length and
`addPattern` persists nothing — so the claim, universally over such
scripts, is false. -/
theorem addPatternV2_dot_guarded_cex :
    scriptDotGuarded longScript = true
    ∧ validateScript longScript = Except.error "Script too long (max 1000 chars)"
    ∧ addPatternV2 [] longPattern = ([], Except.error "Script too long (max 1000 chars)") := by
  have hlen : longScript.length > 1000 := by decide
  have hval : validateScript longScript = Except.error "Script too long (max 1000 chars)" := by
    unfold validateScript
    rw [if_pos hlen]
  refine ⟨by decide, hval, ?_⟩
  unfold addPatternV2
  rw [show longPattern.script = longScript from rfl, hval]

/-- A pattern whose script reaches a deny-listed name only as a
dot-prefixed property access. -/
def dotPattern : Pattern := ⟨none, "n", "a.process", "", ""⟩

/-- Witness for the amended C10: the dot-prefixed script is accepted and
persisted with id 1. -/
theorem addPatternV2_dot_guarded_accepted_witness :
    validateScript dotPattern.script = Except.ok ()
    ∧ addPatternV2 [] dotPattern = ([⟨some 1, "n", "a.process", "", ""⟩], Except.ok 1) := by
  have := addPatternV2_dot_guarded_accepted [] dotPattern (by decide) (by decide)
  exact ⟨this.1, this.2.trans (by rfl)⟩

end Iztro
